import Mathlib

/-!
Verification of `hyena_glt` (BLT_Hyena repository) against its specification.

This file contains a shallow embedding of the two core source files,

  * `src/hyena_glt/training/checkpointing.py` (class `CheckpointManager`), and
  * `src/hyena_glt/evaluation/metrics.py` (metric accumulators and the
    multi-task evaluator),

together with theorems settling the frozen claims C1..C10.

Modelling conventions:

  * The checkpoint directory is modelled as a `Finset` of file names.  File
    names are structured (`FileName.ckpt step epoch` stands for the string
    `checkpoint_step_{step}_epoch_{epoch}.pt`, which is injective in
    `(step, epoch)`; `FileName.best` stands for `best_checkpoint.pt`;
    `FileName.historyFile` stands for `checkpoint_history.json`).
  * `torch.save` / `shutil.copy2` become insertion into the directory set,
    `Path.unlink` becomes erasure.  Deletion is modelled as succeeding (the
    source logs and skips deletion failures).
  * Metric values carried in checkpoint metadata are modelled as integers;
    the manager only compares them, never computes with them.  The initial
    best metric `float("inf")` / `float("-inf")` is modelled as
    `Option Int = none`: every finite value compares strictly better
    against it, in either direction, exactly as against `±inf`.
  * Loading a checkpoint payload is modelled as returning the resolved file
    name (the payload is opaque to the resolution logic being verified).
-/

/-- Files that `CheckpointManager` writes into its checkpoint directory. -/
inductive FileName where
  | ckpt (step : Nat) (epoch : Nat)
  | best
  | historyFile
deriving DecidableEq, Repr

/-- One entry of `self.checkpoint_history` (the dict built in
`save_checkpoint`: path, step, epoch, metrics; the timestamp plays no role
in any claim and is omitted). -/
structure CkptRecord where
  path : FileName
  step : Nat
  epoch : Nat
  metrics : List (String × Int)
deriving DecidableEq, Repr

/-- The in-memory state of a `CheckpointManager` together with the
checkpoint directory it owns. -/
structure MState where
  maxCheckpoints : Int
  saveBest : Bool
  metricForBest : String
  minimizeMetric : Bool
  history : List CkptRecord
  bestMetric : Option Int
  bestPath : Option FileName
  disk : Finset FileName
deriving DecidableEq

/-- Descending-by-step comparison used for
`sorted(..., key=lambda x: x["step"], reverse=True)`. -/
def stepGe (a b : CkptRecord) : Prop := b.step ≤ a.step

instance : DecidableRel stepGe := fun a b => Nat.decLe b.step a.step

instance : IsTotal CkptRecord stepGe := ⟨fun a b => Nat.le_total b.step a.step⟩

instance : IsTrans CkptRecord stepGe := ⟨fun _ _ _ hab hbc => le_trans hbc hab⟩

/-- Stable sort by step, descending (Python's `list.sort` is stable). -/
def sortByStepDesc (l : List CkptRecord) : List CkptRecord := l.insertionSort stepGe

/-- `self.metric_for_best in metrics` / `metrics[self.metric_for_best]`. -/
def lookupMetric (key : String) (ms : List (String × Int)) : Option Int := ms.lookup key

/-- The comparison in `save_checkpoint`:
`(minimize and current < best) or (not minimize and current > best)`,
where an unset best (`±inf`) is beaten by every value. -/
def isBetter (s : MState) (v : Int) : Bool :=
  match s.bestMetric with
  | none => true
  | some b => if s.minimizeMetric then v < b else v > b

/-- Records of `self.checkpoint_history` whose backing file exists
(`Path(checkpoint_info["path"]).exists()`). -/
def existingRecords (s : MState) : List CkptRecord :=
  s.history.filter fun r => decide (r.path ∈ s.disk)

/-- The directory contents after the deletion loop of
`_cleanup_checkpoints`: every existing record beyond the
`max_checkpoints` most recent (by step, descending, stable) is unlinked
unless it is the file backing `self.best_checkpoint_path`. -/
def cleanupDisk (s : MState) : Finset FileName :=
  ((sortByStepDesc (existingRecords s)).drop s.maxCheckpoints.toNat).foldl
    (fun d r => if s.bestPath = some r.path then d else d.erase r.path) s.disk

/-- `CheckpointManager._cleanup_checkpoints`. -/
def cleanup (s : MState) : MState :=
  if s.maxCheckpoints ≤ 0 then s
  else
    { s with disk := cleanupDisk s,
             history := s.history.filter fun r => decide (r.path ∈ cleanupDisk s) }

/-- The arguments of one `save_checkpoint` call (model state, optimizer and
scheduler payloads are opaque and do not influence any claim). -/
structure SaveOp where
  step : Nat
  epoch : Nat
  metrics : List (String × Int)
deriving DecidableEq, Repr

/-- `save_checkpoint` up to (and including) the best-checkpoint update:
write the step-named file, append the history record, and on improvement
update the best pointer and duplicate the file to `best_checkpoint.pt`. -/
def savePre (s : MState) (op : SaveOp) : MState :=
  let path := FileName.ckpt op.step op.epoch
  let s1 := { s with disk := insert path s.disk }
  let s2 := { s1 with
    history := s1.history ++ [(⟨path, op.step, op.epoch, op.metrics⟩ : CkptRecord)] }
  if s2.saveBest then
    match lookupMetric s2.metricForBest op.metrics with
    | some v =>
      if isBetter s2 v then
        { s2 with bestMetric := some v, bestPath := some path,
                  disk := insert FileName.best s2.disk }
      else s2
    | none => s2
  else s2

/-- `CheckpointManager.save_checkpoint`: write + best handling, then
`_cleanup_checkpoints`, then `_save_checkpoint_history` (which writes the
fixed history file), returning the path written. -/
def save_checkpoint (s : MState) (op : SaveOp) : MState × FileName :=
  let s3 := savePre s op
  let s4 := cleanup s3
  ({ s4 with disk := insert FileName.historyFile s4.disk }, FileName.ckpt op.step op.epoch)

/-- What the constructor finds at `checkpoint_history.json`: no file, a file
`json.load` fails on, or a parsed payload.  In the parsed case the fields
carry the values after `dict.get` defaulting: a missing
`checkpoint_history` key is `records = []`, a missing `best_metric` key is
`none` (the constructor-initial `±inf`). -/
inductive HistoryFile where
  | absent
  | corrupt
  | parsed (records : List CkptRecord) (bestMetric : Option Int) (bestPath : Option FileName)
deriving DecidableEq

/-- `CheckpointManager.__init__` followed by `_load_checkpoint_history`.
The `try/except` around `json.load` is total here: the `corrupt` branch is
the `except` handler (set history to `[]`, leave everything else at its
constructor-derived initial value), so construction never fails. -/
def initManager (maxC : Int) (saveBest : Bool) (mfb : String) (minimize : Bool)
    (disk : Finset FileName) (hf : HistoryFile) : MState :=
  let s0 : MState :=
    { maxCheckpoints := maxC, saveBest := saveBest, metricForBest := mfb,
      minimizeMetric := minimize, history := [], bestMetric := none,
      bestPath := none, disk := disk }
  match hf with
  | .absent => s0
  | .corrupt => { s0 with history := [] }
  | .parsed recs bm bp =>
      { s0 with history := recs.filter fun r => decide (r.path ∈ disk),
                bestMetric := bm, bestPath := bp }

/-- A sequence of `save_checkpoint` calls. -/
def runSaves (s : MState) : List SaveOp → MState
  | [] => s
  | op :: ops => runSaves (save_checkpoint s op).1 ops

/-- A manager constructed on an empty directory, after a sequence of saves. -/
def runFromEmpty (N : Int) (saveBest minimize : Bool) (mfb : String)
    (ops : List SaveOp) : MState :=
  runSaves (initManager N saveBest mfb minimize ∅ HistoryFile.absent) ops

/-- Step-named checkpoint files (`checkpoint_step_*_epoch_*.pt`). -/
def isStepFile : FileName → Bool
  | .ckpt _ _ => true
  | _ => false

/-- The step-named checkpoints currently on disk. -/
def stepFiles (s : MState) : Finset FileName := s.disk.filter fun f => isStepFile f

/-- Paths of the `max_checkpoints` most-recent-by-step on-disk-verified
records: the retention window of `_cleanup_checkpoints`. -/
def topNPaths (s : MState) : List FileName :=
  ((sortByStepDesc (existingRecords s)).take s.maxCheckpoints.toNat).map fun r => r.path

/-- Every step-named file on disk is backed by a history record.  This holds
for any manager built on an empty directory and is preserved by saves. -/
def Consistent (s : MState) : Prop :=
  ∀ f ∈ s.disk, isStepFile f = true → ∃ r ∈ s.history, r.path = f

instance (s : MState) : Decidable (Consistent s) := by
  unfold Consistent; infer_instance

/-- `CheckpointManager.get_latest_checkpoint`. -/
def get_latest_checkpoint (s : MState) : Option FileName :=
  if s.history = [] then none
  else
    ((sortByStepDesc s.history).find? fun r => decide (r.path ∈ s.disk)).map
      fun r => r.path

/-- The two `FileNotFoundError`s of `load_checkpoint`. -/
inductive LoadError where
  | noCheckpoints
  | notFound (p : FileName)
deriving DecidableEq, Repr

/-- `CheckpointManager.load_checkpoint`: resolve (best / latest / explicit),
check existence, and read the file; reading is modelled as returning the
resolved name. -/
def load_checkpoint (s : MState) (path : Option FileName) (loadBest : Bool) :
    Except LoadError FileName :=
  if loadBest then
    if FileName.best ∈ s.disk then .ok FileName.best
    else .error (.notFound FileName.best)
  else
    match path with
    | none =>
      match get_latest_checkpoint s with
      | none => .error .noCheckpoints
      | some p => if p ∈ s.disk then .ok p else .error (.notFound p)
    | some p => if p ∈ s.disk then .ok p else .error (.notFound p)

/-- C5: constructing a manager over a history file that fails to parse does
not raise: it yields exactly the state of a manager with no history file at
all — empty history, constructor-initial best metric and best pointer — and
when the file does parse, records whose backing file is absent are filtered
out immediately. -/
theorem C5_corrupted_history_recovery (N : Int) (sb mm : Bool) (mfb : String)
    (disk : Finset FileName) :
    initManager N sb mfb mm disk HistoryFile.corrupt
        = initManager N sb mfb mm disk HistoryFile.absent
    ∧ (initManager N sb mfb mm disk HistoryFile.corrupt).history = []
    ∧ (initManager N sb mfb mm disk HistoryFile.corrupt).bestMetric = none
    ∧ (initManager N sb mfb mm disk HistoryFile.corrupt).bestPath = none
    ∧ ∀ recs bm bp,
        (initManager N sb mfb mm disk (HistoryFile.parsed recs bm bp)).history
          = recs.filter fun r => decide (r.path ∈ disk) :=
  ⟨rfl, rfl, rfl, rfl, fun _ _ _ => rfl⟩

lemma find?_sorted_step_max {l : List CkptRecord} (hs : List.Sorted stepGe l)
    {p : CkptRecord → Bool} {rec : CkptRecord} (h : l.find? p = some rec) :
    ∀ r ∈ l, p r = true → r.step ≤ rec.step := by
  induction l with
  | nil => simp at h
  | cons a t ih =>
    rcases List.sorted_cons.mp hs with ⟨ha, ht⟩
    by_cases hp : p a = true
    · simp only [List.find?, hp] at h
      cases h
      intro r hr _
      rcases List.mem_cons.mp hr with rfl | hrt
      · exact le_refl _
      · exact ha r hrt
    · simp only [List.find?, Bool.of_not_eq_true hp] at h
      intro r hr hpr
      rcases List.mem_cons.mp hr with rfl | hrt
      · exact absurd hpr hp
      · exact ih ht h r hrt hpr

lemma get_latest_spec {s : MState} {p : FileName}
    (h : get_latest_checkpoint s = some p) :
    p ∈ s.disk ∧ ∃ r ∈ s.history, r.path = p ∧
      ∀ r2 ∈ s.history, r2.path ∈ s.disk → r2.step ≤ r.step := by
  unfold get_latest_checkpoint at h
  have hperm := List.perm_insertionSort stepGe s.history
  have hsorted := List.sorted_insertionSort stepGe s.history
  by_cases hh : s.history = []
  · rw [if_pos hh] at h; exact absurd h (by simp)
  · rw [if_neg hh] at h
    rcases Option.map_eq_some'.mp h with ⟨rec, hfind, hpath⟩
    have hrecmem : rec ∈ s.history :=
      hperm.mem_iff.mp (List.mem_of_find?_eq_some hfind)
    have hdisk : rec.path ∈ s.disk := by
      have := List.find?_some hfind
      exact of_decide_eq_true this
    subst hpath
    refine ⟨hdisk, rec, hrecmem, rfl, fun r2 hr2 hr2d => ?_⟩
    exact find?_sorted_step_max hsorted hfind r2 (hperm.mem_iff.mpr hr2)
      (decide_eq_true hr2d)

/-- C6: `load_checkpoint` resolves in exactly three modes.  With
`load_best` it reads the fixed best file name regardless of any explicit
path; an explicit path is returned iff it exists; with neither, it resolves
to a history record of maximal step among those whose file still exists
(stale records are skipped), and it returns a not-found error — never
data — whenever the resolved path does not exist or no usable record
remains. -/
theorem C6_load_resolution (s : MState) :
    (∀ p, p ∈ s.disk → load_checkpoint s (some p) false = .ok p)
    ∧ (∀ p, p ∉ s.disk → load_checkpoint s (some p) false = .error (.notFound p))
    ∧ (∀ q, load_checkpoint s q true =
        if FileName.best ∈ s.disk then .ok FileName.best
        else .error (.notFound FileName.best))
    ∧ ((∀ r ∈ s.history, r.path ∉ s.disk) →
        ∃ e, load_checkpoint s none false = .error e)
    ∧ (∀ p, load_checkpoint s none false = .ok p →
        p ∈ s.disk ∧ ∃ r ∈ s.history, r.path = p ∧
          ∀ r2 ∈ s.history, r2.path ∈ s.disk → r2.step ≤ r.step)
    ∧ (∀ q lb p, load_checkpoint s q lb = .ok p → p ∈ s.disk) := by
  refine ⟨fun p hp => by simp [load_checkpoint, hp],
          fun p hp => by simp [load_checkpoint, hp],
          fun q => rfl, ?_, ?_, ?_⟩
  · intro hstale
    rcases hlat : get_latest_checkpoint s with _ | p
    · exact ⟨.noCheckpoints, by simp [load_checkpoint, hlat]⟩
    · rcases get_latest_spec hlat with ⟨hpd, r, hr, hrp, _⟩
      exact absurd hpd (hrp ▸ hstale r hr)
  · intro p hp
    rcases hlat : get_latest_checkpoint s with _ | p0
    · simp [load_checkpoint, hlat] at hp
    · by_cases hd : p0 ∈ s.disk
      · simp only [load_checkpoint, hlat, if_pos hd, Bool.false_eq_true,
          if_false, Except.ok.injEq] at hp
        subst hp
        exact get_latest_spec hlat
      · simp [load_checkpoint, hlat, hd] at hp
  · intro q lb p h
    cases lb with
    | true =>
      by_cases hd : FileName.best ∈ s.disk
      · simp only [load_checkpoint, if_true, if_pos hd, Except.ok.injEq] at h
        exact h ▸ hd
      · simp [load_checkpoint, hd] at h
    | false =>
      rcases q with _ | p0
      · rcases hlat : get_latest_checkpoint s with _ | p1
        · simp [load_checkpoint, hlat] at h
        · by_cases hd : p1 ∈ s.disk
          · simp only [load_checkpoint, hlat, if_pos hd, Bool.false_eq_true,
              if_false, Except.ok.injEq] at h
            exact h ▸ hd
          · simp [load_checkpoint, hlat, hd] at h
      · by_cases hd : p0 ∈ s.disk
        · simp only [load_checkpoint, if_pos hd, Bool.false_eq_true,
            if_false, Except.ok.injEq] at h
          exact h ▸ hd
        · simp [load_checkpoint, hd] at h

/-- A directory holding only the step-3 checkpoint, with history records
for steps 3 and 7 (the step-7 file has been deleted: a stale record). -/
def c6ExampleState : MState :=
  { maxCheckpoints := 5, saveBest := true, metricForBest := "loss",
    minimizeMetric := true,
    history := [⟨.ckpt 3 0, 3, 0, []⟩, ⟨.ckpt 7 1, 7, 1, []⟩],
    bestMetric := none, bestPath := none,
    disk := {FileName.ckpt 3 0} }

/-- A manager whose history records are all stale (no file on disk). -/
def c6StaleState : MState :=
  { c6ExampleState with disk := ∅ }

theorem C6_load_resolution_witness :
    load_checkpoint c6ExampleState (some (FileName.ckpt 3 0)) false
        = .ok (FileName.ckpt 3 0)
    ∧ ∃ e, load_checkpoint c6StaleState none false = .error e :=
  ⟨(C6_load_resolution c6ExampleState).1 _ (by decide),
   (C6_load_resolution c6StaleState).2.2.2.1 (by decide)⟩

lemma mem_foldl_eraseSkip (l : List CkptRecord) (d : Finset FileName)
    (bp : Option FileName) (f : FileName) :
    (f ∈ l.foldl (fun d r => if bp = some r.path then d else d.erase r.path) d) ↔
      (f ∈ d ∧ ∀ r ∈ l, bp = some r.path ∨ r.path ≠ f) := by
  induction l generalizing d with
  | nil => simp
  | cons a t ih =>
    rw [List.foldl_cons, ih]
    by_cases h : bp = some a.path
    · rw [if_pos h]
      simp only [List.mem_cons]
      constructor
      · rintro ⟨hd, hrest⟩
        exact ⟨hd, fun r hr => hr.elim (fun he => he ▸ Or.inl h) (hrest r)⟩
      · rintro ⟨hd, hall⟩
        exact ⟨hd, fun r hr => hall r (Or.inr hr)⟩
    · rw [if_neg h]
      simp only [Finset.mem_erase, List.mem_cons]
      constructor
      · rintro ⟨⟨hne, hd⟩, hrest⟩
        refine ⟨hd, fun r hr => ?_⟩
        rcases hr with rfl | hrt
        · exact Or.inr (Ne.symm hne)
        · exact hrest r hrt
      · rintro ⟨hd, hall⟩
        refine ⟨⟨?_, hd⟩, fun r hrt => hall r (Or.inr hrt)⟩
        rcases hall a (Or.inl rfl) with hb | hne
        · exact absurd hb h
        · exact Ne.symm hne

/-- The file the best pointer currently designates, as a (sub)singleton. -/
def bestSet (s : MState) : Finset FileName :=
  match s.bestPath with
  | some p => {p}
  | none => ∅

lemma cleanup_disk_of_pos {s : MState} (hN : 0 < s.maxCheckpoints) :
    (cleanup s).disk = cleanupDisk s := by
  unfold cleanup
  rw [if_neg (by omega)]

lemma cleanup_of_nonpos {s : MState} (hN : s.maxCheckpoints ≤ 0) :
    cleanup s = s := by
  unfold cleanup
  rw [if_pos hN]

lemma stepFiles_cleanup_subset (s : MState) (hc : Consistent s)
    (hN : 0 < s.maxCheckpoints) :
    stepFiles (cleanup s) ⊆ (topNPaths s).toFinset ∪ bestSet s := by
  intro f hf
  simp only [stepFiles, Finset.mem_filter, cleanup_disk_of_pos hN] at hf
  obtain ⟨hfd, hstep⟩ := hf
  rw [cleanupDisk, mem_foldl_eraseSkip] at hfd
  obtain ⟨hfdisk, hall⟩ := hfd
  obtain ⟨r, hrmem, hrpath⟩ := hc f hfdisk hstep
  have hrex : r ∈ existingRecords s := by
    rw [existingRecords, List.mem_filter]
    exact ⟨hrmem, decide_eq_true (hrpath ▸ hfdisk)⟩
  have hrsorted : r ∈ sortByStepDesc (existingRecords s) :=
    (List.perm_insertionSort stepGe (existingRecords s)).mem_iff.mpr hrex
  rw [← List.take_append_drop s.maxCheckpoints.toNat
        (sortByStepDesc (existingRecords s)), List.mem_append] at hrsorted
  rcases hrsorted with htake | hdrop
  · apply Finset.mem_union_left
    rw [List.mem_toFinset, topNPaths]
    exact hrpath ▸ List.mem_map_of_mem _ htake
  · rcases hall r hdrop with hb | hne
    · apply Finset.mem_union_right
      simp [bestSet, hb, hrpath]
    · exact absurd hrpath hne

lemma topNPaths_length_le (s : MState) :
    (topNPaths s).length ≤ s.maxCheckpoints.toNat := by
  simp only [topNPaths, List.length_map, List.length_take]
  exact Nat.min_le_left _ _

lemma bestSet_card_le (s : MState) : (bestSet s).card ≤ 1 := by
  unfold bestSet
  cases s.bestPath <;> simp

lemma card_cleanup_le (s : MState) (hc : Consistent s)
    (hN : 0 < s.maxCheckpoints) :
    (stepFiles (cleanup s)).card ≤ s.maxCheckpoints.toNat + 1 := by
  have h1 := Finset.card_le_card (stepFiles_cleanup_subset s hc hN)
  have h2 := Finset.card_union_le (topNPaths s).toFinset (bestSet s)
  have h3 := List.toFinset_card_le (topNPaths s)
  have h4 := topNPaths_length_le s
  have h5 := bestSet_card_le s
  omega

lemma cleanup_escape (s : MState) (hc : Consistent s)
    (hN : 0 < s.maxCheckpoints)
    (h : (stepFiles (cleanup s)).card = s.maxCheckpoints.toNat + 1) :
    ∃ p, s.bestPath = some p ∧ p ∈ stepFiles (cleanup s) ∧ p ∉ topNPaths s := by
  by_contra hcon
  push_neg at hcon
  have hsub : stepFiles (cleanup s) ⊆ (topNPaths s).toFinset := by
    intro f hf
    have hu := stepFiles_cleanup_subset s hc hN hf
    rw [Finset.mem_union] at hu
    rcases hu with h1 | h2
    · exact h1
    · cases hbp : s.bestPath with
      | none => simp [bestSet, hbp] at h2
      | some p =>
        simp only [bestSet, hbp, Finset.mem_singleton] at h2
        subst h2
        rw [List.mem_toFinset]
        exact hcon f hbp hf
  have h1 := Finset.card_le_card hsub
  have h3 := List.toFinset_card_le (topNPaths s)
  have h4 := topNPaths_length_le s
  omega

lemma savePre_fields (s : MState) (op : SaveOp) :
    (savePre s op).history
        = s.history ++ [(⟨FileName.ckpt op.step op.epoch, op.step, op.epoch,
                          op.metrics⟩ : CkptRecord)]
    ∧ ((savePre s op).disk = insert (FileName.ckpt op.step op.epoch) s.disk
       ∨ (savePre s op).disk
           = insert FileName.best (insert (FileName.ckpt op.step op.epoch) s.disk))
    ∧ (savePre s op).maxCheckpoints = s.maxCheckpoints
    ∧ (savePre s op).saveBest = s.saveBest := by
  unfold savePre
  dsimp only
  split
  · split
    · split
      · exact ⟨rfl, Or.inr rfl, rfl, rfl⟩
      · exact ⟨rfl, Or.inl rfl, rfl, rfl⟩
    · exact ⟨rfl, Or.inl rfl, rfl, rfl⟩
  · exact ⟨rfl, Or.inl rfl, rfl, rfl⟩

lemma cleanup_bestPath (s : MState) : (cleanup s).bestPath = s.bestPath := by
  unfold cleanup; split <;> rfl

lemma cleanup_maxCheckpoints (s : MState) :
    (cleanup s).maxCheckpoints = s.maxCheckpoints := by
  unfold cleanup; split <;> rfl

lemma consistent_cleanup {s : MState} (hc : Consistent s) :
    Consistent (cleanup s) := by
  unfold cleanup
  by_cases hN : s.maxCheckpoints ≤ 0
  · rw [if_pos hN]; exact hc
  · rw [if_neg hN]
    intro f hfd hstep
    have hfdisk : f ∈ s.disk := by
      have := hfd
      rw [cleanupDisk, mem_foldl_eraseSkip] at this
      exact this.1
    obtain ⟨r, hrmem, hrpath⟩ := hc f hfdisk hstep
    exact ⟨r, List.mem_filter.mpr ⟨hrmem, decide_eq_true (hrpath ▸ hfd)⟩, hrpath⟩

lemma consistent_savePre {s : MState} (hc : Consistent s) (op : SaveOp) :
    Consistent (savePre s op) := by
  obtain ⟨hh, hd, _, _⟩ := savePre_fields s op
  intro f hfd hstep
  have hmem : f = FileName.ckpt op.step op.epoch ∨ f ∈ s.disk := by
    rcases hd with hd | hd <;> rw [hd] at hfd
    · rcases Finset.mem_insert.mp hfd with h1 | h2
      · exact Or.inl h1
      · exact Or.inr h2
    · rcases Finset.mem_insert.mp hfd with h1 | h2
      · exact absurd (h1 ▸ hstep) (by simp [isStepFile])
      · rcases Finset.mem_insert.mp h2 with h3 | h4
        · exact Or.inl h3
        · exact Or.inr h4
  rcases hmem with rfl | hold
  · refine ⟨⟨FileName.ckpt op.step op.epoch, op.step, op.epoch, op.metrics⟩,
      ?_, rfl⟩
    rw [hh, List.mem_append]
    exact Or.inr (List.mem_singleton.mpr rfl)
  · obtain ⟨r, hrmem, hrpath⟩ := hc f hold hstep
    exact ⟨r, by rw [hh, List.mem_append]; exact Or.inl hrmem, hrpath⟩

lemma save_fst (s : MState) (op : SaveOp) :
    (save_checkpoint s op).1
      = { cleanup (savePre s op) with
          disk := insert FileName.historyFile (cleanup (savePre s op)).disk } := rfl

lemma stepFiles_save (s : MState) (op : SaveOp) :
    stepFiles (save_checkpoint s op).1 = stepFiles (cleanup (savePre s op)) := by
  rw [save_fst]
  simp only [stepFiles]
  rw [Finset.filter_insert, if_neg (by simp [isStepFile])]

lemma save_bestPath (s : MState) (op : SaveOp) :
    (save_checkpoint s op).1.bestPath = (savePre s op).bestPath := by
  rw [save_fst]
  exact cleanup_bestPath _

lemma save_maxCheckpoints (s : MState) (op : SaveOp) :
    (save_checkpoint s op).1.maxCheckpoints = s.maxCheckpoints := by
  rw [save_fst]
  show (cleanup (savePre s op)).maxCheckpoints = s.maxCheckpoints
  rw [cleanup_maxCheckpoints]
  exact (savePre_fields s op).2.2.1

lemma consistent_save {s : MState} (hc : Consistent s) (op : SaveOp) :
    Consistent (save_checkpoint s op).1 := by
  rw [save_fst]
  intro f hfd hstep
  rcases Finset.mem_insert.mp hfd with h1 | h2
  · exact absurd (h1 ▸ hstep) (by simp [isStepFile])
  · exact consistent_cleanup (consistent_savePre hc op) f h2 hstep

lemma consistent_runSaves (ops : List SaveOp) :
    ∀ s : MState, Consistent s → Consistent (runSaves s ops) := by
  induction ops with
  | nil => exact fun s hc => hc
  | cons op t ih => exact fun s hc => ih _ (consistent_save hc op)

lemma runSaves_maxCheckpoints (ops : List SaveOp) :
    ∀ s : MState, (runSaves s ops).maxCheckpoints = s.maxCheckpoints := by
  induction ops with
  | nil => exact fun _ => rfl
  | cons op t ih =>
    exact fun s => (ih _).trans (save_maxCheckpoints s op)

lemma consistent_runFromEmpty (N : Int) (sb mm : Bool) (mfb : String)
    (ops : List SaveOp) : Consistent (runFromEmpty N sb mm mfb ops) := by
  apply consistent_runSaves
  intro f hf
  exact absurd hf (Finset.not_mem_empty f)

lemma runFromEmpty_maxCheckpoints (N : Int) (sb mm : Bool) (mfb : String)
    (ops : List SaveOp) : (runFromEmpty N sb mm mfb ops).maxCheckpoints = N :=
  runSaves_maxCheckpoints ops _

/-- C1: with `max_checkpoints = N > 0`, after any `save_checkpoint` in any
sequence of saves on a manager built over an empty directory, at most
`N + 1` step-named checkpoints remain on disk; and the only way `N + 1`
remain is that the file backing the best pointer survived eviction while
lying outside the `N`-most-recent-by-step window of the cleanup pass. -/
theorem C1_retention_invariant (N : Int) (sb mm : Bool) (mfb : String)
    (ops : List SaveOp) (op : SaveOp) (hN : 0 < N) :
    (stepFiles (save_checkpoint (runFromEmpty N sb mm mfb ops) op).1).card
        ≤ N.toNat + 1
    ∧ ((stepFiles (save_checkpoint (runFromEmpty N sb mm mfb ops) op).1).card
          = N.toNat + 1 →
        ∃ p, (save_checkpoint (runFromEmpty N sb mm mfb ops) op).1.bestPath
              = some p
          ∧ p ∈ stepFiles (save_checkpoint (runFromEmpty N sb mm mfb ops) op).1
          ∧ p ∉ topNPaths (savePre (runFromEmpty N sb mm mfb ops) op)) := by
  have hc0 := consistent_runFromEmpty N sb mm mfb ops
  have hc3 := consistent_savePre hc0 op
  have hmax3 : (savePre (runFromEmpty N sb mm mfb ops) op).maxCheckpoints = N :=
    (savePre_fields _ op).2.2.1.trans (runFromEmpty_maxCheckpoints N sb mm mfb ops)
  have hN3 : 0 < (savePre (runFromEmpty N sb mm mfb ops) op).maxCheckpoints := by
    omega
  have hfiles := stepFiles_save (runFromEmpty N sb mm mfb ops) op
  constructor
  · rw [hfiles]
    have := card_cleanup_le _ hc3 hN3
    rw [hmax3] at this
    exact this
  · intro hcard
    rw [hfiles] at hcard
    have hcard2 : (stepFiles (cleanup (savePre (runFromEmpty N sb mm mfb ops) op))).card
        = (savePre (runFromEmpty N sb mm mfb ops) op).maxCheckpoints.toNat + 1 := by
      rw [hmax3]; exact hcard
    obtain ⟨p, hbp3, hpmem, hptop⟩ := cleanup_escape _ hc3 hN3 hcard2
    refine ⟨p, ?_, ?_, hptop⟩
    · rw [save_bestPath]
      exact hbp3
    · rw [hfiles]
      exact hpmem

theorem C1_retention_invariant_witness :
    (stepFiles (save_checkpoint
        (runFromEmpty 1 true true "loss" [⟨1, 0, [("loss", 5)]⟩])
        ⟨2, 0, [("loss", 10)]⟩).1).card ≤ (1 : Int).toNat + 1 :=
  (C1_retention_invariant 1 true true "loss" [⟨1, 0, [("loss", 5)]⟩]
    ⟨2, 0, [("loss", 10)]⟩ (by decide)).1

/-!
Embedding of `src/hyena_glt/evaluation/metrics.py`.

Tensors are embedded as lists: a `[batch]`-shaped integer tensor is a
`List Int`, a `[batch, seq_len]` one a `List (List Int)`; `flatten`/`view`
is row-major concatenation.  Real values are `ℚ`.

The metric computations call deterministic pure functions of external
libraries (sklearn, scipy, numpy's `sqrt`/`std`, `torch.exp`,
`F.cross_entropy`, Biopython's `molecular_weight`).  These are collected in
`ExtOps` and the code is verified for every instantiation; an `Except Unit`
result models the `ValueError` that the source catches around the AUC
computations and `molecular_weight`. -/

/-- A tensor of one or two dimensions, as accepted by
`ClassificationMetrics.update`. -/
inductive BTensor (α : Type) where
  | one (l : List α)
  | two (l : List (List α))
deriving DecidableEq, Repr

/-- `.flatten()` / `.view(-1, last)`: row-major flattening (the identity on
one-dimensional input). -/
def BTensor.flat : BTensor α → List α
  | .one l => l
  | .two l => l.flatten

/-- The external library functions used by `metrics.py`, as opaque
deterministic pure functions.  The claims under verification do not depend
on their values, only on which calls are made and how results and
exceptions are routed. -/
structure ExtOps where
  accuracy_score : List Int → List Int → ℚ
  precision_score : List Int → List Int → String → ℚ
  recall_score : List Int → List Int → String → ℚ
  f1_score : List Int → List Int → String → ℚ
  f1_score_per_class : List Int → List Int → List ℚ
  matthews_corrcoef : List Int → List Int → ℚ
  roc_auc_score_binary : List Int → List ℚ → Except Unit ℚ
  average_precision_score : List Int → List ℚ → Except Unit ℚ
  roc_auc_score_ovr : List Int → List (List ℚ) → String → Except Unit ℚ
  pearsonr : List ℚ → List ℚ → ℚ × ℚ
  spearmanr : List ℚ → List ℚ → ℚ × ℚ
  sqrt : ℚ → ℚ
  exp : ℚ → ℚ
  cross_entropy_sum : List (List ℚ) → List Int → Int → ℚ
  molecular_weight : String → Except Unit ℚ
  hasBiopython : Bool

/-- A concrete instantiation of the external functions, used to evaluate
the model on closed inputs. -/
def dummyOps : ExtOps :=
  { accuracy_score := fun _ _ => 0, precision_score := fun _ _ _ => 0,
    recall_score := fun _ _ _ => 0, f1_score := fun _ _ _ => 0,
    f1_score_per_class := fun _ _ => [],
    matthews_corrcoef := fun _ _ => 0,
    roc_auc_score_binary := fun _ _ => .ok 0,
    average_precision_score := fun _ _ => .ok 0,
    roc_auc_score_ovr := fun _ _ _ => .ok 0,
    pearsonr := fun _ _ => (0, 0), spearmanr := fun _ _ => (0, 0),
    sqrt := fun _ => 0, exp := fun _ => 0,
    cross_entropy_sum := fun _ _ _ => 0,
    molecular_weight := fun _ => .ok 0, hasBiopython := true }

/-- `np.mean`.  `np.mean` of an empty array is NaN with a warning; the
empty case is modelled as `0` and is unreachable on every path any claim
touches (all call sites are guarded by non-emptiness). -/
def qmean (l : List ℚ) : ℚ := if l.length = 0 then 0 else l.sum / l.length

/-- Accumulated state of `ClassificationMetrics`. -/
structure ClassState where
  num_classes : Int
  average : String
  predictions : List Int
  targets : List Int
  probabilities : List (List ℚ)
deriving DecidableEq, Repr

/-- `ClassificationMetrics.__init__` / `reset`. -/
def initCls (num_classes : Int) (average : String) : ClassState :=
  ⟨num_classes, average, [], [], []⟩

/-- The valid mask of `ClassificationMetrics.update`:
`(targets != -100) & (targets < self.num_classes)`. -/
def validTarget (num_classes : Int) (t : Int) : Bool :=
  decide (t ≠ -100) && decide (t < num_classes)

/-- `ClassificationMetrics.update`: flatten sequence-shaped input, drop
entries failing the valid mask, extend the accumulators (probabilities only
when supplied).  `if valid_mask.any()` guards the extension. -/
def clsUpdate (s : ClassState) (predictions targets : BTensor Int)
    (probabilities : Option (BTensor (List ℚ))) : ClassState :=
  let p := predictions.flat
  let t := targets.flat
  if t.any (validTarget s.num_classes) then
    { s with
      predictions := s.predictions ++
        ((p.zip t).filter fun pt => validTarget s.num_classes pt.2).map Prod.fst,
      targets := s.targets ++
        ((p.zip t).filter fun pt => validTarget s.num_classes pt.2).map Prod.snd,
      probabilities :=
        match probabilities with
        | some pr => s.probabilities ++
            ((pr.flat.zip t).filter fun qt =>
              validTarget s.num_classes qt.2).map Prod.fst
        | none => s.probabilities }
  else s

/-- The five always-present metrics of `ClassificationMetrics.compute`,
plus the per-class F1 entries added when `num_classes > 2`. -/
def clsBaseMetrics (ops : ExtOps) (s : ClassState) : List (String × ℚ) :=
  [("accuracy", ops.accuracy_score s.targets s.predictions),
   ("precision", ops.precision_score s.targets s.predictions s.average),
   ("recall", ops.recall_score s.targets s.predictions s.average),
   ("f1", ops.f1_score s.targets s.predictions s.average),
   ("mcc", ops.matthews_corrcoef s.targets s.predictions)]
  ++ (if 2 < s.num_classes then
        (ops.f1_score_per_class s.targets s.predictions).mapIdx
          fun i v => ("f1_class_" ++ toString i, v)
      else [])

/-- The probabilistic block of `ClassificationMetrics.compute`: the
`try/except ValueError` around the AUC calls.  In the binary branch
`metrics["auc_roc"]` is assigned before `average_precision_score` runs, so
a failure there still leaves `auc_roc` in the dict; in the multiclass
branch only `auc_roc` is ever assigned. -/
def clsAucBlock (ops : ExtOps) (s : ClassState) : List (String × ℚ) :=
  if s.probabilities.isEmpty then []
  else if s.num_classes = 2 then
    match ops.roc_auc_score_binary s.targets
        (s.probabilities.map fun row => row.getD 1 0) with
    | .error _ => []
    | .ok v =>
      match ops.average_precision_score s.targets
          (s.probabilities.map fun row => row.getD 1 0) with
      | .error _ => [("auc_roc", v)]
      | .ok w => [("auc_roc", v), ("auc_pr", w)]
  else
    match ops.roc_auc_score_ovr s.targets s.probabilities s.average with
    | .error _ => []
    | .ok v => [("auc_roc", v)]

/-- `ClassificationMetrics.compute`: empty mapping on an empty accumulator,
otherwise the base metrics followed by whatever the AUC block added. -/
def clsCompute (ops : ExtOps) (s : ClassState) : List (String × ℚ) :=
  if s.predictions.isEmpty then []
  else clsBaseMetrics ops s ++ clsAucBlock ops s

/-- Accumulated state of `RegressionMetrics`. -/
structure RegState where
  predictions : List ℚ
  targets : List ℚ
deriving DecidableEq, Repr

/-- `RegressionMetrics.__init__` / `reset`. -/
def initReg : RegState := ⟨[], []⟩

/-- `RegressionMetrics.update`: extend with flattened values. -/
def regUpdate (s : RegState) (predictions targets : BTensor ℚ) : RegState :=
  { predictions := s.predictions ++ predictions.flat,
    targets := s.targets ++ targets.flat }

/-- `RegressionMetrics.compute`. -/
def regCompute (ops : ExtOps) (s : RegState) : List (String × ℚ) :=
  if s.predictions.isEmpty then []
  else
    let p := s.predictions
    let t := s.targets
    let diffs := (p.zip t).map fun x => x.1 - x.2
    let mse := qmean (diffs.map fun d => d * d)
    let rmse := ops.sqrt mse
    let mae := qmean (diffs.map fun d => |d|)
    let pc := ops.pearsonr p t
    let sc := ops.spearmanr p t
    let ss_res := ((t.zip p).map fun x => (x.1 - x.2) * (x.1 - x.2)).sum
    let mt := qmean t
    let ss_tot := (t.map fun x => (x - mt) * (x - mt)).sum
    let r2 : ℚ := if ss_tot ≠ 0 then 1 - ss_res / ss_tot else 0
    [("mse", mse), ("rmse", rmse), ("mae", mae), ("r2", r2),
     ("pearson_corr", pc.1), ("pearson_p", pc.2),
     ("spearman_corr", sc.1), ("spearman_p", sc.2)]

/-- Accumulated state of `PerplexityMetric`. -/
structure PerpState where
  total_loss : ℚ
  total_tokens : Nat
deriving DecidableEq, Repr

/-- `PerplexityMetric.__init__` / `reset`. -/
def initPerp : PerpState := ⟨0, 0⟩

/-- `PerplexityMetric.update`: add the summed cross-entropy (an external
call) and the count of non-ignored target tokens. -/
def perpUpdate (ops : ExtOps) (s : PerpState) (logits : List (List ℚ))
    (targets : List Int) (ignore_index : Int) : PerpState :=
  { total_loss := s.total_loss + ops.cross_entropy_sum logits targets ignore_index,
    total_tokens := s.total_tokens
      + (targets.filter fun t => decide (t ≠ ignore_index)).length }

/-- A metric value that may be `float("inf")`. -/
inductive PVal where
  | val (q : ℚ)
  | inf
deriving DecidableEq, Repr

/-- `PerplexityMetric.compute`. -/
def perpCompute (ops : ExtOps) (s : PerpState) : List (String × PVal) :=
  if s.total_tokens = 0 then [("perplexity", PVal.inf)]
  else
    let avg := s.total_loss / (s.total_tokens : ℚ)
    [("perplexity", PVal.val (ops.exp avg)), ("cross_entropy", PVal.val avg)]

/-- `calculate_gc_content` (identical in the Biopython and fallback
branches of the source). -/
def calculate_gc_content (sequence : String) : ℚ :=
  let u := sequence.toUpper
  let gcount := u.data.count 'G' + u.data.count 'C'
  if 0 < u.length then (gcount : ℚ) / (u.length : ℚ) else 0

/-- Accumulated state of `GenomicSequenceMetrics`. -/
structure GenState where
  sequence_type : String
  generated_sequences : List String
  reference_sequences : List String
deriving DecidableEq, Repr

/-- `GenomicSequenceMetrics.__init__` (`sequence_type.lower()`). -/
def initGen (sequence_type : String) : GenState := ⟨sequence_type.toLower, [], []⟩

/-- `GenomicSequenceMetrics.update`. -/
def genUpdate (s : GenState) (generated reference : List String) : GenState :=
  { s with generated_sequences := s.generated_sequences ++ generated,
           reference_sequences := s.reference_sequences ++ reference }

/-- The inner loop of `_edit_distance` building `current_row` from
`previous_row`: `min(previous_row[j+1]+1, current_row[j]+1,
previous_row[j] + (c1 != c2))` for each `c2` of `s2`.  `last` is the most
recently appended cell of the current row. -/
def edRow (c1 : Char) : List Char → List Nat → Nat → List Nat
  | c2 :: rest, p0 :: p1 :: ps, last =>
    let m := min (p1 + 1) (min (last + 1) (p0 + (if c1 = c2 then 0 else 1)))
    m :: edRow c1 rest (p1 :: ps) m
  | _, _, _ => []

/-- The outer loop of `_edit_distance` over the characters of `s1`, with
`i` the 0-based index already processed: `current_row = [i + 1] ++ ...`. -/
def edLoop (s2 : List Char) : List Char → List Nat → Nat → List Nat
  | [], prev, _ => prev
  | c1 :: rest, prev, i => edLoop s2 rest ((i + 1) :: edRow c1 s2 prev (i + 1)) (i + 1)

/-- `_edit_distance` after the one possible argument swap: `len(s2) == 0`
short-circuit, then the rolling-row loop started from `range(len(s2)+1)`,
answering `previous_row[-1]`. -/
def edCore (s1 s2 : List Char) : Nat :=
  if s2.length = 0 then s1.length
  else (edLoop s2 s1 (List.range (s2.length + 1)) 0).getLastD 0

/-- `GenomicSequenceMetrics._edit_distance`.  The source swaps the
arguments once when `len(s1) < len(s2)` (the recursive call cannot swap
again, since the lengths are then strictly ordered the other way). -/
def edit_distance (s1 s2 : List Char) : Nat :=
  if s1.length < s2.length then edCore s2 s1 else edCore s1 s2

/-- `_edit_distance` on strings. -/
def editDistanceStr (a b : String) : Nat := edit_distance a.data b.data

/-- `GenomicSequenceMetrics.compute`. -/
def genCompute (ops : ExtOps) (s : GenState) : List (String × ℚ) :=
  if s.generated_sequences.isEmpty ∨ ops.hasBiopython = false then []
  else
    let genL : List ℚ := s.generated_sequences.map fun q => (q.length : ℚ)
    let refL : List ℚ := s.reference_sequences.map fun q => (q.length : ℚ)
    let m1 : List (String × ℚ) :=
      [("avg_length_generated", qmean genL),
       ("avg_length_reference", qmean refL),
       ("length_correlation",
        if genL.length = refL.length then (ops.pearsonr genL refL).1 else 0)]
    let m2 : List (String × ℚ) :=
      if s.sequence_type = "dna" ∨ s.sequence_type = "rna" then
        let gen_gc := (s.generated_sequences.filter fun q => decide (q ≠ "")).map
          calculate_gc_content
        let ref_gc := (s.reference_sequences.filter fun q => decide (q ≠ "")).map
          calculate_gc_content
        if gen_gc ≠ [] ∧ ref_gc ≠ [] then
          [("avg_gc_generated", qmean gen_gc),
           ("avg_gc_reference", qmean ref_gc),
           ("gc_correlation",
            if gen_gc.length = ref_gc.length then (ops.pearsonr gen_gc ref_gc).1 else 0)]
        else []
      else if s.sequence_type = "protein" then
        let gen_mw := s.generated_sequences.filterMap
          fun q => (ops.molecular_weight q).toOption
        let ref_mw := s.reference_sequences.filterMap
          fun q => (ops.molecular_weight q).toOption
        if gen_mw ≠ [] ∧ ref_mw ≠ [] then
          [("avg_mw_generated", qmean gen_mw),
           ("avg_mw_reference", qmean ref_mw),
           ("mw_correlation",
            if gen_mw.length = ref_mw.length then (ops.pearsonr gen_mw ref_mw).1 else 0)]
        else []
      else []
    let m3 : List (String × ℚ) :=
      if s.generated_sequences.length = s.reference_sequences.length then
        let pairs := s.generated_sequences.zip s.reference_sequences
        let eds : List ℚ := pairs.map fun gr => (editDistanceStr gr.1 gr.2 : ℚ)
        let normed : List ℚ :=
          (pairs.filter fun gr => decide (0 < max gr.1.length gr.2.length)).map
            fun gr => (editDistanceStr gr.1 gr.2 : ℚ)
              / ((max gr.1.length gr.2.length : Nat) : ℚ)
        [("avg_edit_distance", qmean eds),
         ("normalized_edit_distance", qmean normed)]
      else []
    m1 ++ m2 ++ m3

/-- Accumulated state of `ComputationalMetrics`. -/
structure CompState where
  inference_times : List ℚ
  memory_usage : List ℚ
  flops_count : List Int
deriving DecidableEq, Repr

/-- `ComputationalMetrics.__init__` / `reset`. -/
def initComp : CompState := ⟨[], [], []⟩

/-- `ComputationalMetrics.update`: each series extends only when its
keyword argument is present. -/
def compUpdate (s : CompState) (inference_time memory_mb : Option ℚ)
    (flops : Option Int) : CompState :=
  { inference_times := s.inference_times ++ inference_time.toList,
    memory_usage := s.memory_usage ++ memory_mb.toList,
    flops_count := s.flops_count ++ flops.toList }

/-- `np.median`: middle of the sorted data, or the mean of the two middle
elements. -/
def qmedian (l : List ℚ) : ℚ :=
  let sorted := l.insertionSort (· ≤ ·)
  let n := sorted.length
  if n = 0 then 0
  else if n % 2 = 1 then sorted.getD (n / 2) 0
  else (sorted.getD (n / 2 - 1) 0 + sorted.getD (n / 2) 0) / 2

/-- Population variance; `np.std` is its square root (taken via
`ExtOps.sqrt`). -/
def qvarPop (l : List ℚ) : ℚ :=
  qmean (l.map fun x => (x - qmean l) * (x - qmean l))

/-- `ComputationalMetrics.compute`: report whichever series have at least
one sample. -/
def compCompute (ops : ExtOps) (s : CompState) : List (String × ℚ) :=
  (if s.inference_times ≠ [] then
    [("avg_inference_time", qmean s.inference_times),
     ("std_inference_time", ops.sqrt (qvarPop s.inference_times)),
     ("median_inference_time", qmedian s.inference_times),
     ("throughput_samples_per_sec", 1 / qmean s.inference_times)]
   else [])
  ++ (if s.memory_usage ≠ [] then
    [("avg_memory_mb", qmean s.memory_usage),
     ("peak_memory_mb", s.memory_usage.foldl max (s.memory_usage.headD 0))]
   else [])
  ++ (if s.flops_count ≠ [] then
    [("avg_flops", qmean (s.flops_count.map fun i => (i : ℚ))),
     ("total_flops", ((s.flops_count.sum : Int) : ℚ))]
   else [])

/-- State-passing form of `ClassificationMetrics.compute`: the method body
only reads `self` fields (it assigns none), so the post-state is the
pre-state. -/
def clsComputeM (ops : ExtOps) (s : ClassState) : List (String × ℚ) × ClassState :=
  (clsCompute ops s, s)

/-- State-passing form of `RegressionMetrics.compute` (no `self` writes). -/
def regComputeM (ops : ExtOps) (s : RegState) : List (String × ℚ) × RegState :=
  (regCompute ops s, s)

/-- State-passing form of `PerplexityMetric.compute` (no `self` writes). -/
def perpComputeM (ops : ExtOps) (s : PerpState) : List (String × PVal) × PerpState :=
  (perpCompute ops s, s)

/-- State-passing form of `GenomicSequenceMetrics.compute` (no `self`
writes). -/
def genComputeM (ops : ExtOps) (s : GenState) : List (String × ℚ) × GenState :=
  (genCompute ops s, s)

/-- State-passing form of `ComputationalMetrics.compute` (no `self`
writes). -/
def compComputeM (ops : ExtOps) (s : CompState) : List (String × ℚ) × CompState :=
  (compCompute ops s, s)

/-- One task configuration dict: each field is `none` when the key is
absent, and `dict.get` defaulting happens at the use site, as in the
source (`config.get("type", "classification")` etc.). -/
structure TaskConfig where
  typeTag : Option String
  num_classes : Option Int
  average : Option String
  sequence_type : Option String
deriving DecidableEq, Repr

/-- The per-metric accumulated state owned by a `MultiTaskEvaluator`. -/
inductive MetricInst where
  | classification (s : ClassState)
  | regression (s : RegState)
  | generation (s : PerpState)
  | genomicSeq (s : GenState)
deriving DecidableEq, Repr

/-- The dispatch in `MultiTaskEvaluator.__init__`: one metric per
recognized type tag; an unrecognized tag produces no entry at all. -/
def mkMetric (c : TaskConfig) : Option MetricInst :=
  match c.typeTag.getD "classification" with
  | "classification" =>
    some (.classification (initCls (c.num_classes.getD 2) (c.average.getD "weighted")))
  | "regression" => some (.regression initReg)
  | "generation" => some (.generation initPerp)
  | "genomic_sequence" => some (.genomicSeq (initGen (c.sequence_type.getD "dna")))
  | _ => none

/-- `MultiTaskEvaluator.__init__`: `self.task_metrics` as an association
list in dict iteration order (dict keys are unique). -/
def mtInit (task_configs : List (String × TaskConfig)) : List (String × MetricInst) :=
  task_configs.filterMap fun nc => (mkMetric nc.2).map fun m => (nc.1, m)

/-- The `**kwargs` of one `update` call, by target metric signature. -/
inductive Payload where
  | cls (predictions targets : BTensor Int) (probabilities : Option (BTensor (List ℚ)))
  | reg (predictions targets : BTensor ℚ)
  | gen (logits : List (List ℚ)) (targets : List Int) (ignore_index : Int)
  | genSeq (generated reference : List String)
deriving DecidableEq, Repr

/-- Dispatch of `Metric.update` on an instance.  A payload whose fields do
not match the metric's signature would raise `TypeError` in Python; no
claim exercises that path and it is modelled as the identity. -/
def metricUpdate (ops : ExtOps) : MetricInst → Payload → MetricInst
  | .classification s, .cls p t pr => .classification (clsUpdate s p t pr)
  | .regression s, .reg p t => .regression (regUpdate s p t)
  | .generation s, .gen lg t ii => .generation (perpUpdate ops s lg t ii)
  | .genomicSeq s, .genSeq g r => .genomicSeq (genUpdate s g r)
  | m, _ => m

/-- `MultiTaskEvaluator.update`: delegate when `task_name` is a key of
`self.task_metrics`, otherwise do nothing. -/
def mtUpdate (ops : ExtOps) (ts : List (String × MetricInst)) (task_name : String)
    (p : Payload) : List (String × MetricInst) :=
  if (ts.lookup task_name).isSome then
    ts.map fun nm => if nm.1 = task_name then (nm.1, metricUpdate ops nm.2 p) else nm
  else ts

/-- C10: on an empty accumulated prediction list (never updated, or every
entry filtered out), `compute` of `ClassificationMetrics` and of
`RegressionMetrics` returns the empty mapping — no keys, no exception, no
zero-valued metrics. -/
theorem C10_empty_state_compute (ops : ExtOps) (sc : ClassState) (sr : RegState)
    (hc : sc.predictions = []) (hr : sr.predictions = []) :
    clsCompute ops sc = [] ∧ regCompute ops sr = [] := by
  constructor
  · simp [clsCompute, hc]
  · simp [regCompute, hr]

theorem C10_empty_state_compute_witness :
    clsCompute dummyOps (initCls 2 "weighted") = []
    ∧ regCompute dummyOps initReg = [] :=
  C10_empty_state_compute dummyOps (initCls 2 "weighted") initReg rfl rfl

/-- C7: for each metric variant, `compute` is a pure function of the
accumulated state: it returns the state unchanged, and a second `compute`
with no intervening `update`/`reset` returns the identical result. -/
theorem C7_compute_idempotent (ops : ExtOps) (s1 : ClassState) (s2 : RegState)
    (s3 : PerpState) (s4 : GenState) (s5 : CompState) :
    ((clsComputeM ops s1).2 = s1
      ∧ (clsComputeM ops (clsComputeM ops s1).2).1 = (clsComputeM ops s1).1)
    ∧ ((regComputeM ops s2).2 = s2
      ∧ (regComputeM ops (regComputeM ops s2).2).1 = (regComputeM ops s2).1)
    ∧ ((perpComputeM ops s3).2 = s3
      ∧ (perpComputeM ops (perpComputeM ops s3).2).1 = (perpComputeM ops s3).1)
    ∧ ((genComputeM ops s4).2 = s4
      ∧ (genComputeM ops (genComputeM ops s4).2).1 = (genComputeM ops s4).1)
    ∧ ((compComputeM ops s5).2 = s5
      ∧ (compComputeM ops (compComputeM ops s5).2).1 = (compComputeM ops s5).1) :=
  ⟨⟨rfl, rfl⟩, ⟨rfl, rfl⟩, ⟨rfl, rfl⟩, ⟨rfl, rfl⟩, ⟨rfl, rfl⟩⟩

lemma zip_filter_snd {p t : List Int} (f : Int → Bool) (h : p.length = t.length) :
    (((p.zip t).filter fun pt => f pt.2).map Prod.snd) = t.filter f := by
  induction p generalizing t with
  | nil => cases t with
    | nil => rfl
    | cons b tb => simp at h
  | cons a ta ih =>
    cases t with
    | nil => simp at h
    | cons b tb =>
      simp only [List.length_cons, Nat.add_right_cancel_iff] at h
      by_cases hb : f b
      · simp [List.zip_cons_cons, List.filter_cons, hb, ih h]
      · simp [List.zip_cons_cons, List.filter_cons, hb, ih h]

lemma filter_zip_nil_of_any_false {p t : List Int} {f : Int → Bool}
    (h : t.any f = false) :
    ((p.zip t).filter fun pt => f pt.2) = [] := by
  rw [List.filter_eq_nil_iff]
  intro pt hpt
  have hsnd := (List.of_mem_zip hpt).2
  have := List.any_eq_false.mp h pt.2 hsnd
  simpa using this

/-- `clsUpdate` without the `valid_mask.any()` guard: the guard only
skips appending empty lists. -/
lemma clsUpdate_eq (s : ClassState) (p t : BTensor Int) :
    clsUpdate s p t none
      = { s with
          predictions := s.predictions ++
            ((p.flat.zip t.flat).filter fun pt =>
              validTarget s.num_classes pt.2).map Prod.fst,
          targets := s.targets ++
            ((p.flat.zip t.flat).filter fun pt =>
              validTarget s.num_classes pt.2).map Prod.snd } := by
  unfold clsUpdate
  by_cases h : t.flat.any (validTarget s.num_classes)
  · rw [if_pos h]
  · rw [if_neg h]
    rw [filter_zip_nil_of_any_false (Bool.eq_false_iff.mpr h)]
    simp

/-- C2 (amended): `ClassificationMetrics.update` drops exactly the entries
whose target equals `-100` or is `≥ num_classes`; a negative target other
than `-100` (also outside `[0, num_classes)`) is RETAINED.  The rule is the
same for per-sample and flattened per-position input. -/
theorem C2_padding_exclusion_amended (s : ClassState) (p t : List Int)
    (P T : List (List Int)) (pr : Option (BTensor (List ℚ)))
    (h : p.length = t.length) :
    ((clsUpdate s (.one p) (.one t) none).targets
        = s.targets ++ t.filter fun x => decide (x ≠ -100) && decide (x < s.num_classes))
    ∧ ((clsUpdate s (.one p) (.one t) none).predictions
        = s.predictions ++ ((p.zip t).filter fun pt =>
            validTarget s.num_classes pt.2).map Prod.fst)
    ∧ clsUpdate s (.two P) (.two T) pr
        = clsUpdate s (.one P.flatten) (.one T.flatten)
            (pr.map fun q => .one q.flat) := by
  refine ⟨?_, ?_, ?_⟩
  · rw [clsUpdate_eq]
    show s.targets ++ _ = _
    simp only [BTensor.flat]
    rw [zip_filter_snd _ h]
    rfl
  · rw [clsUpdate_eq]
    show s.predictions ++ _ = _
    simp only [BTensor.flat]
  · unfold clsUpdate
    cases pr with
    | none => rfl
    | some q => rfl

/-- C2 counterexample: with `num_classes = 2`, the entry with target `-5`
lies outside `[0, 2)` — the claim says it is dropped — yet `update`
accumulates it, because the source mask checks only `!= -100` and
`< num_classes`, never `≥ 0`. -/
theorem C2_padding_exclusion_counterexample :
    (-5 : Int) < 0
    ∧ (clsUpdate (initCls 2 "weighted") (.one [1]) (.one [-5]) none).targets
        = [-5] := by
  constructor
  · decide
  · rfl

/-- Iterated `update` calls (no probabilities). -/
def clsUpdates (s : ClassState) (batches : List (BTensor Int × BTensor Int)) :
    ClassState :=
  batches.foldl (fun st b => clsUpdate st b.1 b.2 none) s

/-- The valid-mask-surviving prediction/target pairs of one batch. -/
def validPairs (num_classes : Int) (b : BTensor Int × BTensor Int) :
    List (Int × Int) :=
  (b.1.flat.zip b.2.flat).filter fun pt => validTarget num_classes pt.2

lemma clsUpdates_state (batches : List (BTensor Int × BTensor Int)) :
    ∀ s : ClassState,
      clsUpdates s batches
        = { s with
            predictions := s.predictions ++
              ((batches.map (validPairs s.num_classes)).flatten.map Prod.fst),
            targets := s.targets ++
              ((batches.map (validPairs s.num_classes)).flatten.map Prod.snd) } := by
  induction batches with
  | nil => intro s; simp [clsUpdates]
  | cons b bs ih =>
    intro s
    show clsUpdates (clsUpdate s b.1 b.2 none) bs = _
    rw [ih, clsUpdate_eq]
    simp [validPairs]

lemma zip_map_fst_snd_pairs (l : List (Int × Int)) :
    (l.map Prod.fst).zip (l.map Prod.snd) = l := by
  induction l with
  | nil => rfl
  | cons a t ih => simp [ih]

lemma validPairs_all_valid (C : Int) (batches : List (BTensor Int × BTensor Int)) :
    ∀ pt ∈ (batches.map (validPairs C)).flatten, validTarget C pt.2 = true := by
  intro pt hpt
  rw [List.mem_flatten] at hpt
  obtain ⟨l, hl, hmem⟩ := hpt
  rw [List.mem_map] at hl
  obtain ⟨b, _, rfl⟩ := hl
  exact (List.mem_filter.mp hmem).2

/-- C4: feeding any sequence of prediction/target batches through repeated
`update` calls and then computing equals a single `update` on the
concatenation, in order, of the valid-mask-surviving pairs of all batches,
followed by `compute` — for every instantiation of the external metric
functions. -/
theorem C4_accumulation_associativity (ops : ExtOps) (C : Int) (avg : String)
    (batches : List (BTensor Int × BTensor Int)) :
    clsCompute ops (clsUpdates (initCls C avg) batches)
      = clsCompute ops (clsUpdate (initCls C avg)
          (.one ((batches.map (validPairs C)).flatten.map Prod.fst))
          (.one ((batches.map (validPairs C)).flatten.map Prod.snd)) none) := by
  congr 1
  rw [clsUpdates_state, clsUpdate_eq]
  simp only [BTensor.flat, initCls, List.nil_append]
  rw [zip_map_fst_snd_pairs,
    List.filter_eq_self.mpr (validPairs_all_valid C batches)]

lemma f1_key_ne_auc_roc (t : String) : ("f1_class_" ++ t) ≠ "auc_roc" := by
  intro h
  have h2 := congrArg String.data h
  simp [String.data] at h2

lemma f1_key_ne_auc_pr (t : String) : ("f1_class_" ++ t) ≠ "auc_pr" := by
  intro h
  have h2 := congrArg String.data h
  simp [String.data] at h2

lemma clsBase_keys (ops : ExtOps) (s : ClassState) :
    ∀ x ∈ (clsBaseMetrics ops s).map Prod.fst,
      x = "accuracy" ∨ x = "precision" ∨ x = "recall" ∨ x = "f1" ∨ x = "mcc"
      ∨ ∃ i : Nat, x = "f1_class_" ++ toString i := by
  intro x hx
  simp only [clsBaseMetrics, List.map_append, List.mem_append] at hx
  rcases hx with h5 | hrest
  · simp only [List.map_cons, List.map_nil, List.mem_cons,
      List.not_mem_nil, or_false] at h5
    tauto
  · split at hrest
    · rw [List.mapIdx_eq_enum_map, List.map_map, List.mem_map] at hrest
      obtain ⟨⟨i, v⟩, _, rfl⟩ := hrest
      exact Or.inr (Or.inr (Or.inr (Or.inr (Or.inr ⟨i, rfl⟩))))
    · simp at hrest

lemma auc_roc_not_base (ops : ExtOps) (s : ClassState) :
    "auc_roc" ∉ (clsBaseMetrics ops s).map Prod.fst := by
  intro hmem
  rcases clsBase_keys ops s _ hmem with h | h | h | h | h | ⟨i, h⟩
  · exact absurd h (by decide)
  · exact absurd h (by decide)
  · exact absurd h (by decide)
  · exact absurd h (by decide)
  · exact absurd h (by decide)
  · exact absurd h.symm (f1_key_ne_auc_roc (toString i))

lemma auc_pr_not_base (ops : ExtOps) (s : ClassState) :
    "auc_pr" ∉ (clsBaseMetrics ops s).map Prod.fst := by
  intro hmem
  rcases clsBase_keys ops s _ hmem with h | h | h | h | h | ⟨i, h⟩
  · exact absurd h (by decide)
  · exact absurd h (by decide)
  · exact absurd h (by decide)
  · exact absurd h (by decide)
  · exact absurd h (by decide)
  · exact absurd h.symm (f1_key_ne_auc_pr (toString i))

lemma auc_pr_not_block_multiclass (ops : ExtOps) (s : ClassState)
    (h : 2 < s.num_classes) :
    "auc_pr" ∉ (clsAucBlock ops s).map Prod.fst := by
  unfold clsAucBlock
  by_cases hpe : s.probabilities.isEmpty
  · rw [if_pos hpe]; simp
  · rw [if_neg hpe, if_neg (by omega : ¬ s.num_classes = 2)]
    cases hovr : ops.roc_auc_score_ovr s.targets s.probabilities s.average <;> simp

/-- C3 (amended): the AUC keys appear only when probabilities were
accumulated; in the binary case a successful computation yields BOTH
`auc_roc` and `auc_pr`; in the multiclass case a successful computation
yields ONLY `auc_roc` — `auc_pr` is never emitted when
`num_classes > 2`. -/
theorem C3_auc_keys_amended (ops : ExtOps) (s : ClassState) :
    (s.probabilities = [] →
        "auc_roc" ∉ (clsCompute ops s).map Prod.fst
        ∧ "auc_pr" ∉ (clsCompute ops s).map Prod.fst)
    ∧ (s.num_classes = 2 → s.predictions ≠ [] → s.probabilities ≠ [] →
        ∀ v w,
          ops.roc_auc_score_binary s.targets
              (s.probabilities.map fun r => r.getD 1 0) = .ok v →
          ops.average_precision_score s.targets
              (s.probabilities.map fun r => r.getD 1 0) = .ok w →
          "auc_roc" ∈ (clsCompute ops s).map Prod.fst
          ∧ "auc_pr" ∈ (clsCompute ops s).map Prod.fst)
    ∧ (2 < s.num_classes → s.predictions ≠ [] → s.probabilities ≠ [] →
        ∀ v, ops.roc_auc_score_ovr s.targets s.probabilities s.average = .ok v →
          "auc_roc" ∈ (clsCompute ops s).map Prod.fst)
    ∧ (2 < s.num_classes → "auc_pr" ∉ (clsCompute ops s).map Prod.fst) := by
  refine ⟨?_, ?_, ?_, ?_⟩
  · intro hpr
    have hblock : clsAucBlock ops s = [] := by
      simp [clsAucBlock, hpr]
    by_cases hp : s.predictions.isEmpty
    · constructor <;> simp [clsCompute, hp]
    · unfold clsCompute
      rw [if_neg hp, hblock, List.append_nil]
      exact ⟨auc_roc_not_base ops s, auc_pr_not_base ops s⟩
  · intro h2 hpne hprne v w hroc hap
    have hp : ¬ s.predictions.isEmpty = true := by
      simpa [List.isEmpty_iff] using hpne
    have hpe : ¬ s.probabilities.isEmpty = true := by
      simpa [List.isEmpty_iff] using hprne
    have hblock : clsAucBlock ops s = [("auc_roc", v), ("auc_pr", w)] := by
      unfold clsAucBlock
      rw [if_neg hpe, if_pos h2]
      simp only [hroc, hap]
    unfold clsCompute
    rw [if_neg hp, hblock]
    constructor <;> simp
  · intro h3 hpne hprne v hovr
    have hp : ¬ s.predictions.isEmpty = true := by
      simpa [List.isEmpty_iff] using hpne
    have hpe : ¬ s.probabilities.isEmpty = true := by
      simpa [List.isEmpty_iff] using hprne
    have hblock : clsAucBlock ops s = [("auc_roc", v)] := by
      unfold clsAucBlock
      rw [if_neg hpe, if_neg (by omega : ¬ s.num_classes = 2)]
      simp only [hovr]
    unfold clsCompute
    rw [if_neg hp, hblock]
    simp
  · intro h3
    by_cases hp : s.predictions.isEmpty
    · simp [clsCompute, hp]
    · unfold clsCompute
      rw [if_neg hp]
      intro hmem
      rw [List.map_append, List.mem_append] at hmem
      rcases hmem with h | h
      · exact auc_pr_not_base ops s h
      · exact auc_pr_not_block_multiclass ops s h3 h

theorem C3_auc_keys_amended_witness :
    "auc_roc" ∈ (clsCompute dummyOps
        ⟨3, "weighted", [0], [0], [[1, 0, 0]]⟩).map Prod.fst
    ∧ "auc_pr" ∉ (clsCompute dummyOps
        ⟨3, "weighted", [0], [0], [[1, 0, 0]]⟩).map Prod.fst :=
  ⟨(C3_auc_keys_amended dummyOps ⟨3, "weighted", [0], [0], [[1, 0, 0]]⟩).2.2.1
      (by decide) (by decide) (by decide) 0 rfl,
   (C3_auc_keys_amended dummyOps ⟨3, "weighted", [0], [0], [[1, 0, 0]]⟩).2.2.2
      (by decide)⟩

/-- C3 counterexample: a multiclass (`num_classes = 3`) accumulator with
probabilities, where the one-vs-rest AUC call succeeds (`ok`), still yields
no `auc_pr` key — refuting the claim that both AUC metrics appear in the
multiclass case. -/
theorem C3_auc_keys_counterexample :
    dummyOps.roc_auc_score_ovr [0] [[1, 0, 0]] "weighted" = .ok 0
    ∧ "auc_roc" ∈ (clsCompute dummyOps
        ⟨3, "weighted", [0], [0], [[1, 0, 0]]⟩).map Prod.fst
    ∧ "auc_pr" ∉ (clsCompute dummyOps
        ⟨3, "weighted", [0], [0], [[1, 0, 0]]⟩).map Prod.fst := by
  refine ⟨rfl, ?_, ?_⟩
  · decide
  · decide

lemma lookup_none_of_not_mem_keys {β : Type} (l : List (String × β)) (n : String)
    (h : n ∉ l.map Prod.fst) : l.lookup n = none := by
  induction l with
  | nil => rfl
  | cons a t ih =>
    obtain ⟨k, b⟩ := a
    simp only [List.map_cons, List.mem_cons] at h
    push_neg at h
    have hba : (n == k) = false := beq_eq_false_iff_ne.mpr h.1
    rw [List.lookup_cons, hba]
    exact ih h.2

lemma mtInit_keys_sub (configs : List (String × TaskConfig)) (n : String)
    (h : n ∈ (mtInit configs).map Prod.fst) : n ∈ configs.map Prod.fst := by
  rw [List.mem_map] at h
  obtain ⟨pair, hmem, rfl⟩ := h
  rw [mtInit, List.mem_filterMap] at hmem
  obtain ⟨nc, hnc, hmk⟩ := hmem
  rcases hopt : mkMetric nc.2 with _ | m
  · rw [hopt] at hmk; cases hmk
  · rw [hopt] at hmk
    simp only [Option.map_some', Option.some.injEq] at hmk
    rw [List.mem_map]
    exact ⟨nc, hnc, by rw [← hmk]⟩

lemma mtInit_lookup_none (configs : List (String × TaskConfig)) (name : String)
    (cfg : TaskConfig) (hnd : (configs.map Prod.fst).Nodup)
    (hmem : (name, cfg) ∈ configs) (hnone : mkMetric cfg = none) :
    (mtInit configs).lookup name = none := by
  induction configs with
  | nil => cases hmem
  | cons a t ih =>
    rw [List.map_cons, List.nodup_cons] at hnd
    rcases List.mem_cons.mp hmem with heq | hmemt
    · subst heq
      rw [mtInit, List.filterMap_cons]
      dsimp only
      rw [hnone]
      simp only [Option.map_none']
      apply lookup_none_of_not_mem_keys
      intro hk
      exact hnd.1 (mtInit_keys_sub t name hk)
    · rw [mtInit, List.filterMap_cons]
      rcases hopt : mkMetric a.2 with _ | m
      · simp only [Option.map_none']
        exact ih hnd.2 hmemt
      · simp only [Option.map_some']
        have hne : (name == a.1) = false := by
          apply beq_eq_false_iff_ne.mpr
          intro he
          exact hnd.1 (he ▸ List.mem_map.mpr ⟨(name, cfg), hmemt, rfl⟩)
        rw [List.lookup_cons, hne]
        exact ih hnd.2 hmemt

/-- C9: `MultiTaskEvaluator.update` on a task name with no instantiated
metric — never configured, or configured with an unrecognized type tag
(such a task is silently absent from the metric set) — raises nothing and
returns every metric's accumulated state unchanged. -/
theorem C9_unknown_task_noop (ops : ExtOps) (ts : List (String × MetricInst))
    (name : String) (p : Payload) :
    (ts.lookup name = none → mtUpdate ops ts name p = ts)
    ∧ ∀ (configs : List (String × TaskConfig)) (cfg : TaskConfig),
        (configs.map Prod.fst).Nodup → (name, cfg) ∈ configs →
        mkMetric cfg = none →
        (mtInit configs).lookup name = none
        ∧ mtUpdate ops (mtInit configs) name p = mtInit configs := by
  have hfirst : ts.lookup name = none → mtUpdate ops ts name p = ts := by
    intro h
    unfold mtUpdate
    rw [h]
    rfl
  refine ⟨hfirst, fun configs cfg hnd hmem hnone => ?_⟩
  have hlk := mtInit_lookup_none configs name cfg hnd hmem hnone
  constructor
  · exact hlk
  · unfold mtUpdate
    rw [hlk]
    rfl

theorem C9_unknown_task_noop_witness :
    (mtInit [("taskA", ⟨some "classification", some 2, none, none⟩),
             ("weird", ⟨some "segmentation", none, none, none⟩)]).lookup "weird"
        = none
    ∧ mtUpdate dummyOps
        (mtInit [("taskA", ⟨some "classification", some 2, none, none⟩),
                 ("weird", ⟨some "segmentation", none, none, none⟩)])
        "weird" (Payload.reg (.one []) (.one []))
      = mtInit [("taskA", ⟨some "classification", some 2, none, none⟩),
                ("weird", ⟨some "segmentation", none, none, none⟩)] :=
  (C9_unknown_task_noop dummyOps [] "weird" (Payload.reg (.one []) (.one []))).2
    [("taskA", ⟨some "classification", some 2, none, none⟩),
     ("weird", ⟨some "segmentation", none, none, none⟩)]
    ⟨some "segmentation", none, none, none⟩
    (by decide) (by decide) (by decide)

/-- Standard unit-cost Levenshtein distance on character lists (Mathlib's
`levenshtein` with the default cost structure): the reference semantics the
source's rolling-row implementation must match. -/
def levChar (s t : List Char) : Nat := levenshtein Levenshtein.defaultCost s t

lemma levChar_nil_left (t : List Char) : levChar [] t = t.length := by
  induction t with
  | nil => simp [levChar]
  | cons c t ih =>
    show levenshtein Levenshtein.defaultCost [] (c :: t) = _
    rw [levenshtein_nil_cons]
    show 1 + levChar [] t = _
    rw [ih, List.length_cons]
    omega

lemma levChar_nil_right (s : List Char) : levChar s [] = s.length := by
  induction s with
  | nil => simp [levChar]
  | cons c s ih =>
    show levenshtein Levenshtein.defaultCost (c :: s) [] = _
    rw [levenshtein_cons_nil]
    show 1 + levChar s [] = _
    rw [ih, List.length_cons]
    omega

lemma levChar_cons_cons (x : Char) (xs : List Char) (y : Char) (ys : List Char) :
    levChar (x :: xs) (y :: ys)
      = min (1 + levChar xs (y :: ys))
          (min (1 + levChar (x :: xs) ys)
            ((if x = y then 0 else 1) + levChar xs ys)) := by
  show levenshtein Levenshtein.defaultCost (x :: xs) (y :: ys) = _
  rw [levenshtein_cons_cons]
  rfl

lemma min_dp_shuffle (A B C D E F G H I q r : Nat) :
    min (1 + min (A + 1) (min (B + 1) (E + r)))
        (min (1 + min (F + 1) (min (G + 1) (H + r)))
             (q + min (C + 1) (min (D + 1) (I + r))))
    = min (min (1 + A) (min (1 + F) (q + C)) + 1)
          (min (min (1 + B) (min (1 + G) (q + D)) + 1)
               (min (1 + E) (min (1 + H) (q + I)) + r)) := by
  have dl : ∀ a b c : Nat, a + min b c = min (a + b) (a + c) :=
    fun a b c => (min_add_add_left a b c).symm
  have dr : ∀ a b c : Nat, min a b + c = min (a + c) (b + c) :=
    fun a b c => (min_add_add_right a b c).symm
  simp only [dl, dr, min_assoc]
  ring_nf
  ac_rfl

lemma levChar_snoc_snoc (c d : Char) (s t : List Char) :
    levChar (s ++ [c]) (t ++ [d])
      = min (levChar s (t ++ [d]) + 1)
          (min (levChar (s ++ [c]) t + 1)
            (levChar s t + (if c = d then 0 else 1))) := by
  induction s generalizing t with
  | nil =>
    induction t with
    | nil =>
      simp only [List.nil_append]
      rw [levChar_cons_cons]
      simp only [levChar_nil_left, levChar_nil_right, List.length_cons,
        List.length_nil]
      split_ifs <;> omega
    | cons e t2 iht =>
      simp only [List.nil_append, List.cons_append] at iht ⊢
      simp only [levChar_cons_cons]
      rw [iht]
      simp only [levChar_nil_left, List.length_append, List.length_cons,
        List.length_nil]
      split_ifs <;> omega
  | cons a s2 ihs =>
    induction t with
    | nil =>
      simp only [List.nil_append, List.cons_append]
      simp only [levChar_cons_cons]
      have h0 := ihs []
      simp only [List.nil_append] at h0
      rw [h0]
      simp only [levChar_nil_right, levChar_nil_left, List.length_append,
        List.length_cons, List.length_nil]
      split_ifs <;> omega
    | cons e t2 iht =>
      simp only [List.cons_append] at iht ⊢
      simp only [levChar_cons_cons]
      have h1 := ihs (e :: t2)
      simp only [List.cons_append] at h1
      have h2 := ihs t2
      rw [h1, h2, iht]
      exact min_dp_shuffle _ _ _ _ _ _ _ _ _ _ _

/-- The row of Levenshtein distances from the prefix `p` of `s1` to the
prefixes of `s2` that extend `q`: the semantic content of `previous_row`. -/
def rowAux (p q : List Char) : List Char → List Nat
  | [] => [levChar p q]
  | c :: cs => levChar p q :: rowAux p (q ++ [c]) cs

/-- The tail of `rowAux`. -/
def rowAuxT (p q : List Char) : List Char → List Nat
  | [] => []
  | c :: cs => rowAux p (q ++ [c]) cs

lemma rowAux_eq (p q cs : List Char) :
    rowAux p q cs = levChar p q :: rowAuxT p q cs := by
  cases cs <;> rfl

lemma edRow_rowAux (c1 : Char) (p : List Char) :
    ∀ (cs q : List Char),
      edRow c1 cs (rowAux p q cs) (levChar (p ++ [c1]) q) = rowAuxT (p ++ [c1]) q cs := by
  intro cs
  induction cs with
  | nil => intro q; rfl
  | cons c2 rest ih =>
    intro q
    show edRow c1 (c2 :: rest) (rowAux p q (c2 :: rest)) (levChar (p ++ [c1]) q) = _
    rw [show rowAux p q (c2 :: rest) = levChar p q :: rowAux p (q ++ [c2]) rest from rfl]
    rw [rowAux_eq p (q ++ [c2]) rest]
    rw [show edRow c1 (c2 :: rest)
          (levChar p q :: levChar p (q ++ [c2]) :: rowAuxT p (q ++ [c2]) rest)
          (levChar (p ++ [c1]) q)
        = min (levChar p (q ++ [c2]) + 1)
            (min (levChar (p ++ [c1]) q + 1)
              (levChar p q + (if c1 = c2 then 0 else 1)))
          :: edRow c1 rest (levChar p (q ++ [c2]) :: rowAuxT p (q ++ [c2]) rest)
            (min (levChar p (q ++ [c2]) + 1)
              (min (levChar (p ++ [c1]) q + 1)
                (levChar p q + (if c1 = c2 then 0 else 1)))) from rfl]
    rw [← levChar_snoc_snoc c1 c2 p q]
    rw [← rowAux_eq p (q ++ [c2]) rest]
    rw [ih (q ++ [c2])]
    rw [show rowAuxT (p ++ [c1]) q (c2 :: rest) = rowAux (p ++ [c1]) (q ++ [c2]) rest
        from rfl]
    rw [rowAux_eq (p ++ [c1]) (q ++ [c2]) rest]

lemma edLoop_rowAux (s2 : List Char) :
    ∀ (rest p : List Char),
      edLoop s2 rest (rowAux p [] s2) p.length = rowAux (p ++ rest) [] s2 := by
  intro rest
  induction rest with
  | nil => intro p; simp [edLoop]
  | cons c1 rest2 ih =>
    intro p
    show edLoop s2 rest2
        ((p.length + 1) :: edRow c1 s2 (rowAux p [] s2) (p.length + 1))
        (p.length + 1) = _
    have hlast : levChar (p ++ [c1]) [] = p.length + 1 := by
      rw [levChar_nil_right]; simp
    rw [← hlast, edRow_rowAux c1 p s2 [], ← rowAux_eq (p ++ [c1]) [] s2]
    rw [hlast]
    have h2 : (p ++ [c1]).length = p.length + 1 := by simp
    rw [← h2, ih (p ++ [c1]), List.append_assoc]
    rfl

lemma map_add_range (a n : Nat) :
    (List.range (n + 1)).map (fun j => a + j)
      = a :: (List.range n).map (fun j => a + 1 + j) := by
  rw [List.range_succ_eq_map, List.map_cons, List.map_map]
  simp only [Nat.add_zero]
  congr 1
  apply List.map_congr_left
  intro j _
  simp only [Function.comp_apply]
  omega

lemma rowAux_nil_left :
    ∀ (cs q : List Char),
      rowAux [] q cs = (List.range (cs.length + 1)).map (fun j => q.length + j) := by
  intro cs
  induction cs with
  | nil =>
    intro q
    show [levChar [] q] = _
    rw [levChar_nil_left, show ([] : List Char).length = 0 from rfl,
       map_add_range q.length 0]
    simp
  | cons c cs2 ih =>
    intro q
    show levChar [] q :: rowAux [] (q ++ [c]) cs2 = _
    rw [levChar_nil_left, ih (q ++ [c])]
    have hq : (q ++ [c]).length = q.length + 1 := by simp
    rw [hq, show (c :: cs2).length = cs2.length + 1 from rfl,
       map_add_range q.length (cs2.length + 1)]

lemma rowAux_range (s2 : List Char) :
    rowAux [] [] s2 = List.range (s2.length + 1) := by
  rw [rowAux_nil_left s2 []]
  simp

lemma rowAux_getLast (p : List Char) :
    ∀ (cs q : List Char), (rowAux p q cs).getLast? = some (levChar p (q ++ cs)) := by
  intro cs
  induction cs with
  | nil => intro q; simp [rowAux]
  | cons c cs2 ih =>
    intro q
    rw [show rowAux p q (c :: cs2) = levChar p q :: rowAux p (q ++ [c]) cs2 from rfl]
    rw [rowAux_eq p (q ++ [c]) cs2, List.getLast?_cons_cons,
        ← rowAux_eq p (q ++ [c]) cs2, ih (q ++ [c])]
    rw [List.append_assoc]
    rfl

lemma edCore_eq_levChar (s1 s2 : List Char) : edCore s1 s2 = levChar s1 s2 := by
  unfold edCore
  by_cases h2 : s2.length = 0
  · rw [if_pos h2]
    have : s2 = [] := List.length_eq_zero.mp h2
    subst this
    rw [levChar_nil_right]
  · rw [if_neg h2]
    rw [← rowAux_range s2]
    have hloop := edLoop_rowAux s2 s1 []
    rw [List.length_nil, List.nil_append] at hloop
    rw [hloop]
    rw [List.getLastD_eq_getLast?, rowAux_getLast s1 s2 []]
    rfl

lemma levChar_comm (s t : List Char) : levChar s t = levChar t s := by
  induction s generalizing t with
  | nil => rw [levChar_nil_left, levChar_nil_right]
  | cons x xs ihs =>
    induction t with
    | nil => rw [levChar_nil_left, levChar_nil_right]
    | cons y ys iht =>
      rw [levChar_cons_cons, levChar_cons_cons]
      rw [ihs (y :: ys), ihs ys, ← iht]
      have hxy : (if x = y then 0 else 1) = (if y = x then 0 else 1) := by
        by_cases h : x = y
        · rw [if_pos h, if_pos h.symm]
        · rw [if_neg h, if_neg (fun he => h he.symm)]
      rw [hxy]
      omega

lemma levChar_self (s : List Char) : levChar s s = 0 := by
  induction s with
  | nil => simp [levChar]
  | cons x xs ih =>
    rw [levChar_cons_cons, if_pos rfl, ih]
    omega

/-- C8: the rolling-row `_edit_distance` is symmetric, zero on equal
strings, and agrees with the standard unit-cost Levenshtein distance
(Mathlib's `levenshtein` under the default cost structure). -/
theorem C8_edit_distance_algebra (a b : String) :
    editDistanceStr a b = editDistanceStr b a
    ∧ editDistanceStr a a = 0
    ∧ editDistanceStr a b = levenshtein Levenshtein.defaultCost a.data b.data := by
  have key : ∀ s t : List Char, edit_distance s t = levChar s t := by
    intro s t
    unfold edit_distance
    by_cases h : s.length < t.length
    · rw [if_pos h, edCore_eq_levChar, levChar_comm]
    · rw [if_neg h, edCore_eq_levChar]
  refine ⟨?_, ?_, key a.data b.data⟩
  · unfold editDistanceStr
    rw [key, key, levChar_comm]
  · unfold editDistanceStr
    rw [key, levChar_self]

theorem C2_padding_exclusion_amended_witness :
    (clsUpdate (initCls 2 "weighted") (.one [1, 0]) (.one [-100, 1]) none).targets
      = (initCls 2 "weighted").targets ++ [(-100 : Int), 1].filter
          (fun x => decide (x ≠ -100)
            && decide (x < (initCls 2 "weighted").num_classes)) :=
  (C2_padding_exclusion_amended (initCls 2 "weighted") [1, 0] [-100, 1] [] [] none
    (by decide)).1
